import Mathlib

/-
Verification of the size-targeted AVIF quality search and batch-conversion
pipeline of src/app.py.

The encoder is abstracted as a function enc : Nat -> Option Nat mapping a
quality level to the byte size of the encoded image (some size) or to a codec
error (none), matching the spec's treatment of the codec as an opaque
collaborator.  All other definitions are direct translations of the Python
source: machine integers are Nat (Python ints are unbounded and all sizes,
qualities and counters in the program are nonnegative), float arithmetic in
the compression-ratio formula is modelled over the rationals, and per-item
exceptions are modelled as explicit outcome constructors.
-/

namespace Image2Avif

/-- Result dictionary returned by find_optimal_quality (src/app.py lines
167-172 and 183-188): quality and size are absent (None) when no quality
level ever encoded successfully. -/
structure SearchResult where
  quality : Option Nat
  size : Option Nat
  iterations : Nat
  in_tolerance : Bool
deriving DecidableEq

/-- The pair (quality, size) returned by a search, when present.  In the
source, best_quality and best_size are None together or set together. -/
def SearchResult.found (r : SearchResult) : Option (Nat × Nat) :=
  match r.quality, r.size with
  | some q, some s => some (q, s)
  | _, _ => none

/-- The final return value of find_optimal_quality when the while loop
exhausts (src/app.py lines 183-188): the best-seen candidate, the iteration
count, and in_tolerance recomputed against the best candidate
(False when best_size is None). -/
def mkFinal (target tol : Nat) (best : Option (Nat × Nat)) (iter : Nat) :
    SearchResult :=
  { quality := best.map Prod.fst
    size := best.map Prod.snd
    iterations := iter
    in_tolerance :=
      match best with
      | none => false
      | some (_, s) => decide (Nat.dist s target ≤ tol) }

/-- Best-candidate update (src/app.py lines 161-164): the candidate (mid, s)
replaces the current best exactly when best_quality is None or the new
distance to target is strictly smaller. -/
def updateBest (target : Nat) (best : Option (Nat × Nat)) (mid s : Nat) :
    Option (Nat × Nat) :=
  match best with
  | none => some (mid, s)
  | some (q0, s0) =>
    if Nat.dist s target < Nat.dist s0 target then some (mid, s)
    else some (q0, s0)

/-- The while loop of find_optimal_quality (src/app.py lines 149-188).
Arguments low, high, best, iter are the loop variables; the last argument is
the remaining fuel max_iter - iteration, so fuel = 0 exactly when
iteration = max_iter and the loop condition iteration < max_iter fails.
Besides the SearchResult the embedding also returns the trace of encode
attempts (mid, enc mid) actually performed, one per loop iteration, used to
state properties about "quality levels actually attempted in the run". -/
def searchLoop (enc : Nat → Option Nat) (target tol : Nat) :
    Nat → Nat → Option (Nat × Nat) → Nat → Nat →
      SearchResult × List (Nat × Option Nat)
  | _, _, best, iter, 0 => (mkFinal target tol best iter, [])
  | low, high, best, iter, fuel + 1 =>
    if low ≤ high then
      match enc ((low + high) / 2) with
      | none =>
        ((searchLoop enc target tol low ((low + high) / 2 - 1) best
            (iter + 1) fuel).1,
          ((low + high) / 2, none) ::
            (searchLoop enc target tol low ((low + high) / 2 - 1) best
              (iter + 1) fuel).2)
      | some s =>
        if Nat.dist s target ≤ tol then
          ({ quality := some ((low + high) / 2), size := some s,
             iterations := iter + 1, in_tolerance := true },
            [((low + high) / 2, some s)])
        else if target < s then
          ((searchLoop enc target tol low ((low + high) / 2 - 1)
              (updateBest target best ((low + high) / 2) s) (iter + 1)
              fuel).1,
            ((low + high) / 2, some s) ::
              (searchLoop enc target tol low ((low + high) / 2 - 1)
                (updateBest target best ((low + high) / 2) s) (iter + 1)
                fuel).2)
        else
          ((searchLoop enc target tol ((low + high) / 2 + 1) high
              (updateBest target best ((low + high) / 2) s) (iter + 1)
              fuel).1,
            ((low + high) / 2, some s) ::
              (searchLoop enc target tol ((low + high) / 2 + 1) high
                (updateBest target best ((low + high) / 2) s) (iter + 1)
                fuel).2)
    else (mkFinal target tol best iter, [])

/-- find_optimal_quality (src/app.py lines 143-188): binary search starting
from low = 1, high = 100, best_quality = best_size = None, iteration = 0. -/
def find_optimal_quality (enc : Nat → Option Nat)
    (target_bytes tol_bytes max_iter : Nat) : SearchResult :=
  (searchLoop enc target_bytes tol_bytes 1 100 none 0 max_iter).1

/-- The encode attempts (mid, enc mid) performed by a run of
find_optimal_quality, in order, one per executed loop iteration. -/
def searchTrace (enc : Nat → Option Nat)
    (target_bytes tol_bytes max_iter : Nat) : List (Nat × Option Nat) :=
  (searchLoop enc target_bytes tol_bytes 1 100 none 0 max_iter).2

/-- The successful encode attempts of a trace: the (quality, size) pairs for
which the codec did not raise. -/
def successes (tr : List (Nat × Option Nat)) : List (Nat × Nat) :=
  tr.filterMap fun p => p.2.map fun s => (p.1, s)

/-- A sample encoder whose output size equals the quality level. -/
def encId : Nat → Option Nat := fun q => some q

/-- A sample encoder that fails (raises a codec error) at every quality. -/
def encNone : Nat → Option Nat := fun _ => none

/-- A sample non-monotone encoder: size 5 at quality 37 and size 1000 at
every other quality. -/
def enc37 : Nat → Option Nat := fun q => if q = 37 then some 5 else some 1000

/-- r is the first-found minimiser of the distance to target among the
observed (quality, size) pairs l: r is absent exactly when l is empty, and
otherwise r occurs in l, every earlier observation is strictly farther from
the target, and every later observation is no closer.  This is the
best-tracking discipline of src/app.py lines 161-164, where a later
equal-distance candidate never replaces the current best. -/
def FirstMin (target : Nat) (l : List (Nat × Nat)) :
    Option (Nat × Nat) → Prop
  | none => l = []
  | some p => ∃ l₁ l₂, l = l₁ ++ p :: l₂
      ∧ (∀ q ∈ l₁, Nat.dist p.2 target < Nat.dist q.2 target)
      ∧ (∀ q ∈ l₂, Nat.dist p.2 target ≤ Nat.dist q.2 target)

/-- The running statistics dictionary of a batch run (src/app.py lines
220-226 and 436-442); start_time is not modelled (wall-clock time). -/
structure RunStats where
  converted : Nat
  failed : Nat
  original_size_total : Nat
  converted_size_total : Nat
deriving DecidableEq

/-- The fresh statistics initialised at the start of each run. -/
def initStats : RunStats := ⟨0, 0, 0, 0⟩

/-- Outcome of the caught (try/except) region of the per-item body for one
input item, abstracting what the external collaborators (PIL decode, AVIF
encode, result sink) do for that item: the item fails to open as an image
(an exception before or at Image.open), the quality search returns quality
None, the final save raises, or the final encode succeeds with the given
converted size.  In web mode (src/app.py lines 261-305) every per-item
failure point lies inside the try block, so these are the only per-item
outcomes there; in local mode the pre-try makedirs/getsize step can also
fail and is modelled separately by LocalItem. -/
inductive ItemStep where
  | decodeError
  | qualityNotFound
  | saveError
  | success (convertedSize : Nat)
deriving DecidableEq

/-- One iteration of the per-item loop body for an item whose pre-try work
succeeded, shared by convert_uploaded_files (src/app.py lines 236-308) and
convert_local_directory (lines 453-499): the original size is added to the
totals before the try block; then either the failed counter or the
converted counter (together with the converted size total) is incremented,
and control reaches the next item.  The in-memory size reads and UI
progress calls outside the try are treated as non-failing collaborators. -/
def processItem (stats : RunStats) (originalSize : Nat) (step : ItemStep) :
    RunStats :=
  let stats1 : RunStats :=
    { stats with original_size_total := stats.original_size_total + originalSize }
  match step with
  | ItemStep.decodeError => { stats1 with failed := stats1.failed + 1 }
  | ItemStep.qualityNotFound => { stats1 with failed := stats1.failed + 1 }
  | ItemStep.saveError => { stats1 with failed := stats1.failed + 1 }
  | ItemStep.success convertedSize =>
    { stats1 with
      converted := stats1.converted + 1
      converted_size_total := stats1.converted_size_total + convertedSize }

/-- The per-item loop of the web-mode batch run: a left fold of processItem
over the input items (each item given by its original size and its caught
outcome), started from fresh statistics.  In web mode every per-item
failure point lies inside the try block, so the loop always consumes the
whole list. -/
def runBatch (items : List (Nat × ItemStep)) : RunStats :=
  items.foldl (fun st it => processItem st it.1 it.2) initStats

/-- Web-mode batch run (src/app.py lines 206-308, statistics only): an
empty upload list is rejected before the loop (lines 207-209), otherwise
every item is processed. -/
def convert_uploaded_files (items : List (Nat × ItemStep)) : Option RunStats :=
  if items = [] then none else some (runBatch items)

/-- The kinds of entries convert_local_directory appends to conversion.log,
in source order: the invalid-directory error (line 394), the run-start info
(line 399), the empty-input warning (line 432), the per-item outcome
entries (lines 476, 487, 496) and the final summary (line 524). -/
inductive LogEntry where
  | errorInvalidDir
  | infoStart
  | warnNoInput
  | errorQualitySearchFailed
  | infoConverted
  | errorConvertFailed
  | infoCompleted
deriving DecidableEq

/-- The single log entry emitted for one processed item (src/app.py lines
471-497): success logs an info line, a quality-search failure logs its
specific error line, and any other exception logs the generic conversion
error line. -/
def itemLog (step : ItemStep) : LogEntry :=
  match step with
  | ItemStep.success _ => LogEntry.infoConverted
  | ItemStep.qualityNotFound => LogEntry.errorQualitySearchFailed
  | ItemStep.decodeError => LogEntry.errorConvertFailed
  | ItemStep.saveError => LogEntry.errorConvertFailed

/-- Result of a local-mode run: the entries this run appends to the log and
the final statistics (absent when the run aborts before the loop or when
the loop itself is aborted by an uncaught exception). -/
structure LocalRunResult where
  log : List LogEntry
  summary : Option RunStats
deriving DecidableEq

/-- A local-mode input item together with the outcome of its per-item work:
either the pre-try step aborts -- os.makedirs (src/app.py line 457) and
os.path.getsize (line 459) run outside the try block, so an exception there
propagates and terminates the whole loop with no counter updated for the
item -- or the pre-try step succeeds with the given original size and the
try-block region produces the given caught outcome. -/
inductive LocalItem where
  | uncaughtError
  | item (originalSize : Nat) (step : ItemStep)
deriving DecidableEq

/-- The per-item loop of convert_local_directory (src/app.py lines
453-499): items are processed in order; an item whose pre-try
makedirs/getsize step raises aborts the loop at once, the exception
propagating out of the function (the remaining items are not processed and
no further log entry is written); otherwise the body updates the counters
as processItem and logs one outcome entry.  Returns the outcome log
entries written by the loop and the final statistics, absent when the loop
was aborted. -/
def localLoop : List LocalItem → RunStats → List LogEntry × Option RunStats
  | [], st => ([], some st)
  | LocalItem.uncaughtError :: _, _ => ([], none)
  | LocalItem.item os step :: rest, st =>
    (itemLog step :: (localLoop rest (processItem st os step)).1,
      (localLoop rest (processItem st os step)).2)

/-- Local-mode batch run, convert_local_directory (src/app.py lines
391-529): an invalid directory aborts with an error (before the log is
cleared); otherwise the log is cleared and the run-start info line is
written (lines 398-399), then the eligible files are collected (modelled as
the given item list, enumeration being an external collaborator); zero
eligible files abort with the empty-input warning (lines 430-433) and no
summary; otherwise the per-item loop runs: if it completes, the final
summary line is written and the statistics are returned, and if it is
aborted by an uncaught per-item exception, the function terminates with
the log as written so far and no summary. -/
def convert_local_directory (validDir : Bool)
    (items : List LocalItem) : LocalRunResult :=
  if validDir then
    if items.length = 0 then
      { log := [LogEntry.infoStart, LogEntry.warnNoInput], summary := none }
    else
      match (localLoop items initStats).2 with
      | some st =>
        { log := LogEntry.infoStart :: (localLoop items initStats).1
            ++ [LogEntry.infoCompleted]
          summary := some st }
      | none =>
        { log := LogEntry.infoStart :: (localLoop items initStats).1
          summary := none }
  else { log := [LogEntry.errorInvalidDir], summary := none }

/-- The per-item compression ratio (src/app.py lines 281 and 485):
(1 - convertedSize / originalSize) * 100 when originalSize > 0, else 0.
Python computes this with float division; it is modelled exactly over the
rationals. -/
def compressionRatioPercent (originalSize convertedSize : Nat) : ℚ :=
  if 0 < originalSize then
    (1 - (convertedSize : ℚ) / (originalSize : ℚ)) * 100
  else 0

/-- Python str.lower applied characterwise (the characters relevant to the
.avif suffix test are ASCII). -/
def lowerStr (l : List Char) : List Char := l.map Char.toLower

/-- The characters of the target extension ".avif". -/
def avifSuffix : List Char := ['.', 'a', 'v', 'i', 'f']

/-- avif_name.lower().endswith('.avif') from src/app.py line 253. -/
def endswithAvifLower (l : List Char) : Bool :=
  List.isSuffixOf avifSuffix (lowerStr l)

/-- str.rfind for a single character: the index of its last occurrence, or
-1 when absent, as in Python. -/
def rfindIdx (c : Char) : List Char → Int
  | [] => -1
  | x :: xs =>
    let r := rfindIdx c xs
    if 0 ≤ r then r + 1 else if x = c then 0 else -1

/-- os.path.splitext for POSIX paths (genericpath._splitext with sep = '/',
no altsep, extsep = '.'): split at the last dot that comes after the last
separator, unless every character between the separator and that dot is a
dot (leading dots of the file name do not start an extension). -/
def splitext (p : List Char) : List Char × List Char :=
  let sepIndex := rfindIdx '/' p
  let dotIndex := rfindIdx '.' p
  if sepIndex < dotIndex then
    if ((p.drop (sepIndex + 1).toNat).take (dotIndex - (sepIndex + 1)).toNat).all
        (fun c => c = '.') then
      (p, [])
    else (p.take dotIndex.toNat, p.drop dotIndex.toNat)
  else (p, [])

/-- The output-name rule of convert_uploaded_files (src/app.py lines
250-256): with keepOriginalName the original name is kept when it already
ends in .avif (case-insensitively) and otherwise has its extension replaced
by .avif; without keepOriginalName the extension is always replaced. -/
def avifName (keepOriginalName : Bool) (originalName : List Char) : List Char :=
  if keepOriginalName then
    if endswithAvifLower originalName then originalName
    else (splitext originalName).1 ++ avifSuffix
  else (splitext originalName).1 ++ avifSuffix

/-- The characters of the sample input name "photo.png". -/
def photoPng : List Char := ['p', 'h', 'o', 't', 'o', '.', 'p', 'n', 'g']

/-- The characters of the expected output name "photo.avif". -/
def photoAvif : List Char := ['p', 'h', 'o', 't', 'o', '.', 'a', 'v', 'i', 'f']

theorem mkFinal_found (target tol : Nat) (best : Option (Nat × Nat))
    (iter : Nat) : (mkFinal target tol best iter).found = best := by
  cases best with
  | none => rfl
  | some p => obtain ⟨q, s⟩ := p; rfl

theorem searchLoop_iterations_aux (enc : Nat → Option Nat) (target tol : Nat) :
    ∀ (fuel low high : Nat) (best : Option (Nat × Nat)) (iter : Nat),
      (searchLoop enc target tol low high best iter fuel).1.iterations
          = iter + (searchLoop enc target tol low high best iter fuel).2.length
        ∧ (searchLoop enc target tol low high best iter fuel).2.length ≤ fuel := by
  intro fuel
  induction fuel with
  | zero =>
    intro low high best iter
    simp [searchLoop, mkFinal]
  | succ fuel ih =>
    intro low high best iter
    by_cases hlh : low ≤ high
    · cases henc : enc ((low + high) / 2) with
      | none =>
        have h := ih low ((low + high) / 2 - 1) best (iter + 1)
        simp only [searchLoop, if_pos hlh, henc]
        simp only [List.length_cons]
        omega
      | some s =>
        by_cases htol : Nat.dist s target ≤ tol
        · simp [searchLoop, if_pos hlh, henc, htol]
        · by_cases hgt : target < s
          · have h := ih low ((low + high) / 2 - 1)
              (updateBest target best ((low + high) / 2) s) (iter + 1)
            simp only [searchLoop, if_pos hlh, henc, if_neg htol, if_pos hgt]
            simp only [List.length_cons]
            omega
          · have h := ih ((low + high) / 2 + 1) high
              (updateBest target best ((low + high) / 2) s) (iter + 1)
            simp only [searchLoop, if_pos hlh, henc, if_neg htol, if_neg hgt]
            simp only [List.length_cons]
            omega
    · simp [searchLoop, if_neg hlh, mkFinal]

/-- Claim C3: for every maxIterations ≥ 1, find_optimal_quality terminates
(it is a total function of its fuel) performing at most maxIterations encode
attempts, and the iterations field of the returned result equals the number
of encode attempts actually made (the length of the attempt trace, counting
failed attempts) and is at most maxIterations. -/
theorem find_optimal_quality_iteration_bound (enc : Nat → Option Nat)
    (target tol maxIter : Nat) (h : 1 ≤ maxIter) :
    (find_optimal_quality enc target tol maxIter).iterations
        = (searchTrace enc target tol maxIter).length
      ∧ (find_optimal_quality enc target tol maxIter).iterations ≤ maxIter := by
  obtain ⟨h1, h2⟩ := searchLoop_iterations_aux enc target tol maxIter 1 100 none 0
  refine ⟨?_, ?_⟩
  · simpa [find_optimal_quality, searchTrace] using h1
  · simp only [find_optimal_quality]
    omega

/-- Witness for claim C3 at a concrete run: the identity-size encoder with
target 10, tolerance 0 and maxIterations 7 performs 6 encode attempts
(qualities 50, 25, 12, 6, 9, 10, the last one an early-exit success) --
the iteration count matches the trace length and is at most 7. -/
theorem find_optimal_quality_iteration_bound_witness :
    1 ≤ 7
      ∧ ((find_optimal_quality encId 10 0 7).iterations
            = (searchTrace encId 10 0 7).length
          ∧ (find_optimal_quality encId 10 0 7).iterations ≤ 7) :=
  ⟨by decide, find_optimal_quality_iteration_bound encId 10 0 7 (by decide)⟩

theorem firstMin_updateBest (target : Nat) (pre : List (Nat × Nat))
    (best : Option (Nat × Nat)) (mid s : Nat)
    (h : FirstMin target pre best) :
    FirstMin target (pre ++ [(mid, s)]) (updateBest target best mid s) := by
  cases best with
  | none =>
    simp only [FirstMin] at h
    subst h
    simp only [updateBest, FirstMin]
    exact ⟨[], [], by simp, by simp, by simp⟩
  | some p =>
    obtain ⟨q0, s0⟩ := p
    simp only [FirstMin] at h
    obtain ⟨l₁, l₂, rfl, h₁, h₂⟩ := h
    simp only [updateBest]
    by_cases hd : Nat.dist s target < Nat.dist s0 target
    · rw [if_pos hd]
      simp only [FirstMin]
      refine ⟨l₁ ++ (q0, s0) :: l₂, [], by simp, ?_, by simp⟩
      intro q hq
      rcases List.mem_append.mp hq with hm | hm
      · exact lt_trans hd (h₁ q hm)
      · rcases List.mem_cons.mp hm with rfl | hm
        · exact hd
        · exact lt_of_lt_of_le hd (h₂ q hm)
    · rw [if_neg hd]
      simp only [FirstMin]
      refine ⟨l₁, l₂ ++ [(mid, s)], by simp, h₁, ?_⟩
      intro q hq
      rcases List.mem_append.mp hq with hm | hm
      · exact h₂ q hm
      · have hq2 : q = (mid, s) := by simpa using hm
        subst hq2
        exact Nat.le_of_not_lt hd

theorem mem_successes (tr : List (Nat × Option Nat)) (q s : Nat) :
    (q, s) ∈ successes tr ↔ (q, some s) ∈ tr := by
  constructor
  · intro h
    obtain ⟨p, hmem, hf⟩ := List.mem_filterMap.mp h
    obtain ⟨a, o⟩ := p
    cases o with
    | none => simp at hf
    | some t =>
      simp only [Option.map_some', Option.some.injEq, Prod.mk.injEq] at hf
      obtain ⟨rfl, rfl⟩ := hf
      exact hmem
  · intro h
    exact List.mem_filterMap.mpr ⟨(q, some s), h, rfl⟩

theorem mkFinal_spec (target tol : Nat) (best : Option (Nat × Nat))
    (iter : Nat) (pre : List (Nat × Nat))
    (hbest : FirstMin target pre best)
    (hpre : ∀ p ∈ pre, tol < Nat.dist p.2 target) :
    FirstMin target pre (mkFinal target tol best iter).found
      ∧ (mkFinal target tol best iter).in_tolerance = false := by
  refine ⟨by rw [mkFinal_found]; exact hbest, ?_⟩
  cases best with
  | none => rfl
  | some p =>
    obtain ⟨q0, s0⟩ := p
    have hmem : (q0, s0) ∈ pre := by
      simp only [FirstMin] at hbest
      obtain ⟨l₁, l₂, rfl, -, -⟩ := hbest
      simp
    have hd := hpre _ hmem
    simp only [mkFinal, decide_eq_false_iff_not]
    exact not_le.mpr hd

theorem searchLoop_spec (enc : Nat → Option Nat) (target tol : Nat) :
    ∀ (fuel low high : Nat) (best : Option (Nat × Nat)) (iter : Nat)
      (pre : List (Nat × Nat)),
      FirstMin target pre best →
      (∀ p ∈ pre, tol < Nat.dist p.2 target) →
      FirstMin target
          (pre ++ successes (searchLoop enc target tol low high best iter fuel).2)
          (searchLoop enc target tol low high best iter fuel).1.found
        ∧ ((searchLoop enc target tol low high best iter fuel).1.in_tolerance = true
            ↔ ∃ p ∈ successes (searchLoop enc target tol low high best iter fuel).2,
                Nat.dist p.2 target ≤ tol)
        ∧ ((searchLoop enc target tol low high best iter fuel).1.in_tolerance = true
            → ∃ s, (searchLoop enc target tol low high best iter fuel).1.size = some s
                ∧ Nat.dist s target ≤ tol) := by
  intro fuel
  induction fuel with
  | zero =>
    intro low high best iter pre hbest hpre
    obtain ⟨hf, hi⟩ := mkFinal_spec target tol best iter pre hbest hpre
    exact ⟨by simpa [searchLoop, successes] using hf,
      by simp [searchLoop, successes, hi],
      by simp [searchLoop, hi]⟩
  | succ fuel ih =>
    intro low high best iter pre hbest hpre
    by_cases hlh : low ≤ high
    · cases henc : enc ((low + high) / 2) with
      | none =>
        have h := ih low ((low + high) / 2 - 1) best (iter + 1) pre hbest hpre
        simpa [searchLoop, if_pos hlh, henc, successes] using h
      | some s =>
        by_cases htol : Nat.dist s target ≤ tol
        · simp only [searchLoop, if_pos hlh, henc, if_pos htol]
          refine ⟨?_, ?_, ?_⟩
          · simp only [successes, List.filterMap_cons, Option.map_some',
              List.filterMap_nil, SearchResult.found, FirstMin]
            refine ⟨pre, [], by simp, ?_, by simp⟩
            intro q hq
            exact Nat.lt_of_le_of_lt htol (hpre q hq)
          · simp [successes, htol]
          · exact fun _ => ⟨s, rfl, htol⟩
        · have hs : tol < Nat.dist s target := Nat.lt_of_not_le htol
          have hbest2 := firstMin_updateBest target pre best ((low + high) / 2) s hbest
          have hpre2 : ∀ p ∈ pre ++ [((low + high) / 2, s)],
              tol < Nat.dist p.2 target := by
            intro p hp
            rcases List.mem_append.mp hp with hm | hm
            · exact hpre p hm
            · have hp2 : p = ((low + high) / 2, s) := by simpa using hm
              subst hp2
              exact hs
          by_cases hgt : target < s
          · have h := ih low ((low + high) / 2 - 1)
              (updateBest target best ((low + high) / 2) s) (iter + 1)
              (pre ++ [((low + high) / 2, s)]) hbest2 hpre2
            simp only [searchLoop, if_pos hlh, henc, if_neg htol, if_pos hgt]
            refine ⟨?_, ?_, ?_⟩
            · simpa [successes, List.filterMap_cons, List.append_assoc] using h.1
            · rw [show successes (((low + high) / 2, some s) ::
                  (searchLoop enc target tol low ((low + high) / 2 - 1)
                    (updateBest target best ((low + high) / 2) s) (iter + 1) fuel).2)
                  = ((low + high) / 2, s) ::
                    successes (searchLoop enc target tol low ((low + high) / 2 - 1)
                      (updateBest target best ((low + high) / 2) s) (iter + 1) fuel).2
                from rfl]
              constructor
              · intro ht
                obtain ⟨p, hp, hdp⟩ := h.2.1.mp ht
                exact ⟨p, List.mem_cons_of_mem _ hp, hdp⟩
              · rintro ⟨p, hp, hdp⟩
                rcases List.mem_cons.mp hp with rfl | hp2
                · exact absurd hdp htol
                · exact h.2.1.mpr ⟨p, hp2, hdp⟩
            · exact h.2.2
          · have h := ih ((low + high) / 2 + 1) high
              (updateBest target best ((low + high) / 2) s) (iter + 1)
              (pre ++ [((low + high) / 2, s)]) hbest2 hpre2
            simp only [searchLoop, if_pos hlh, henc, if_neg htol, if_neg hgt]
            refine ⟨?_, ?_, ?_⟩
            · simpa [successes, List.filterMap_cons, List.append_assoc] using h.1
            · rw [show successes (((low + high) / 2, some s) ::
                  (searchLoop enc target tol ((low + high) / 2 + 1) high
                    (updateBest target best ((low + high) / 2) s) (iter + 1) fuel).2)
                  = ((low + high) / 2, s) ::
                    successes (searchLoop enc target tol ((low + high) / 2 + 1) high
                      (updateBest target best ((low + high) / 2) s) (iter + 1) fuel).2
                from rfl]
              constructor
              · intro ht
                obtain ⟨p, hp, hdp⟩ := h.2.1.mp ht
                exact ⟨p, List.mem_cons_of_mem _ hp, hdp⟩
              · rintro ⟨p, hp, hdp⟩
                rcases List.mem_cons.mp hp with rfl | hp2
                · exact absurd hdp htol
                · exact h.2.1.mpr ⟨p, hp2, hdp⟩
            · exact h.2.2
    · obtain ⟨hf, hi⟩ := mkFinal_spec target tol best iter pre hbest hpre
      exact ⟨by simpa [searchLoop, if_neg hlh, successes] using hf,
        by simp [searchLoop, if_neg hlh, successes, hi],
        by simp [searchLoop, if_neg hlh, hi]⟩

theorem mkFinal_quality_range (target tol : Nat) (best : Option (Nat × Nat))
    (iter : Nat)
    (hb : ∀ qb sb, best = some (qb, sb) → 1 ≤ qb ∧ qb ≤ 100)
    (q : Nat) (hq : (mkFinal target tol best iter).quality = some q) :
    1 ≤ q ∧ q ≤ 100 := by
  simp only [mkFinal, Option.map_eq_some'] at hq
  obtain ⟨p, hp, hfst⟩ := hq
  subst hfst
  exact hb p.1 p.2 hp

theorem searchLoop_range (enc : Nat → Option Nat) (target tol : Nat) :
    ∀ (fuel low high : Nat) (best : Option (Nat × Nat)) (iter : Nat),
      1 ≤ low → high ≤ 100 →
      (∀ qb sb, best = some (qb, sb) → 1 ≤ qb ∧ qb ≤ 100) →
      ∀ q, (searchLoop enc target tol low high best iter fuel).1.quality = some q →
        1 ≤ q ∧ q ≤ 100 := by
  intro fuel
  induction fuel with
  | zero =>
    intro low high best iter hlow hhigh hb q hq
    simp only [searchLoop] at hq
    exact mkFinal_quality_range target tol best iter hb q hq
  | succ fuel ih =>
    intro low high best iter hlow hhigh hb q hq
    by_cases hlh : low ≤ high
    · have hm1 : 1 ≤ (low + high) / 2 := by omega
      have hm2 : (low + high) / 2 ≤ 100 := by omega
      cases henc : enc ((low + high) / 2) with
      | none =>
        simp only [searchLoop, if_pos hlh, henc] at hq
        exact ih low ((low + high) / 2 - 1) best (iter + 1) hlow (by omega) hb q hq
      | some s =>
        have hb2 : ∀ qb sb,
            updateBest target best ((low + high) / 2) s = some (qb, sb) →
            1 ≤ qb ∧ qb ≤ 100 := by
          intro qb sb hqb
          cases best with
          | none =>
            simp only [updateBest, Option.some.injEq, Prod.mk.injEq] at hqb
            omega
          | some p =>
            obtain ⟨q0, s0⟩ := p
            simp only [updateBest] at hqb
            split at hqb
            · simp only [Option.some.injEq, Prod.mk.injEq] at hqb
              omega
            · simp only [Option.some.injEq, Prod.mk.injEq] at hqb
              obtain ⟨h1, -⟩ := hqb
              subst h1
              exact hb q0 s0 rfl
        by_cases htol : Nat.dist s target ≤ tol
        · simp only [searchLoop, if_pos hlh, henc, if_pos htol,
            Option.some.injEq] at hq
          omega
        · by_cases hgt : target < s
          · simp only [searchLoop, if_pos hlh, henc, if_neg htol, if_pos hgt] at hq
            exact ih low ((low + high) / 2 - 1) _ (iter + 1) hlow (by omega) hb2 q hq
          · simp only [searchLoop, if_pos hlh, henc, if_neg htol, if_neg hgt] at hq
            exact ih ((low + high) / 2 + 1) high _ (iter + 1) (by omega) hhigh hb2 q hq
    · simp only [searchLoop, if_neg hlh] at hq
      exact mkFinal_quality_range target tol best iter hb q hq

/-- Claim C2: in every run of find_optimal_quality, the returned quality,
when present, lies in [1,100], and the returned (quality, size) pair is the
first-found minimiser of |size - targetBytes| among all quality levels
actually attempted (and successfully encoded) in that run: every earlier
attempt is strictly farther from the target (so a later equal-distance
candidate never replaces the current best) and every later attempt is no
closer.  FirstMin also covers the early-exit path, where the returned
candidate is strictly closer than every earlier attempt. -/
theorem find_optimal_quality_best_tracking (enc : Nat → Option Nat)
    (target tol maxIter : Nat) :
    FirstMin target (successes (searchTrace enc target tol maxIter))
        (find_optimal_quality enc target tol maxIter).found
      ∧ ∀ q, (find_optimal_quality enc target tol maxIter).quality = some q →
          1 ≤ q ∧ q ≤ 100 := by
  constructor
  · have h := (searchLoop_spec enc target tol maxIter 1 100 none 0 [] rfl
      (by simp)).1
    simpa [find_optimal_quality, searchTrace] using h
  · intro q hq
    exact searchLoop_range enc target tol maxIter 1 100 none 0 (by decide)
      (by decide) (by intro qb sb h; exact Option.noConfusion h) q hq

/-- Witness for claim C2: on the non-monotone encoder enc37 with target 5,
tolerance 0 and maxIterations 10, the run returns quality 50 (the first
attempted quality, all attempts being equidistant from the target), which
lies in [1,100]. -/
theorem find_optimal_quality_best_tracking_witness : 1 ≤ 50 ∧ 50 ≤ 100 :=
  (find_optimal_quality_best_tracking enc37 5 0 10).2 50 rfl

/-- Claim C1 is refuted: with the non-monotone encoder enc37 (size 5 at
quality 37, size 1000 elsewhere), target 5 > 0, tolerance 0 ≥ 0 and
maxIterations 10 in the UI range [5,15], quality 37 lies in [1,100] and
encodes exactly on target, yet the run returns in_tolerance = false: the
binary search probes 50, 25, 12, 6, 3, 1 and never attempts quality 37. -/
theorem find_optimal_quality_completeness_counterexample :
    0 < 5 ∧ 0 ≤ 0 ∧ 5 ≤ 10 ∧ 10 ≤ 15
      ∧ 1 ≤ 37 ∧ 37 ≤ 100 ∧ enc37 37 = some 5 ∧ Nat.dist 5 5 ≤ 0
      ∧ (find_optimal_quality enc37 5 0 10).in_tolerance = false := by
  decide

/-- Claim C1 as amended: completeness holds for the quality levels actually
attempted rather than for all of [1,100].  If some attempted quality
encodes successfully within tolerance of the target, the search returns
in_tolerance = true and a quality whose encoded size satisfies
|size - target| ≤ tolerance. -/
theorem find_optimal_quality_attempted_tolerance (enc : Nat → Option Nat)
    (target tol maxIter q s : Nat)
    (hmem : (q, some s) ∈ searchTrace enc target tol maxIter)
    (htol : Nat.dist s target ≤ tol) :
    (find_optimal_quality enc target tol maxIter).in_tolerance = true
      ∧ ∃ s0, (find_optimal_quality enc target tol maxIter).size = some s0
          ∧ Nat.dist s0 target ≤ tol := by
  obtain ⟨-, hiff, hsize⟩ :=
    searchLoop_spec enc target tol maxIter 1 100 none 0 [] rfl (by simp)
  have hobs : (q, s) ∈ successes (searchLoop enc target tol 1 100 none 0 maxIter).2 :=
    (mem_successes _ q s).mpr hmem
  have ht : (searchLoop enc target tol 1 100 none 0 maxIter).1.in_tolerance = true :=
    hiff.mpr ⟨(q, s), hobs, htol⟩
  exact ⟨ht, hsize ht⟩

/-- Witness for the amended claim C1: with the identity-size encoder,
target 50 and tolerance 0, quality 50 is attempted and encodes exactly on
target, and the run indeed reports in_tolerance = true with a size within
tolerance. -/
theorem find_optimal_quality_attempted_tolerance_witness :
    ((50, some 50) ∈ searchTrace encId 50 0 10 ∧ Nat.dist 50 50 ≤ 0)
      ∧ ((find_optimal_quality encId 50 0 10).in_tolerance = true
          ∧ ∃ s0, (find_optimal_quality encId 50 0 10).size = some s0
              ∧ Nat.dist s0 50 ≤ 0) :=
  ⟨⟨by decide, by decide⟩,
    find_optimal_quality_attempted_tolerance encId 50 0 10 50 50 (by decide)
      (by decide)⟩

/-- Claim C10: in_tolerance = true is only ever produced by the in-loop
early exit, never by the recomputed tolerance check on the loop-exhaustion
path.  Formally, the run reports in_tolerance = true exactly when some
attempted quality encoded successfully within tolerance; since the
iteration producing such an attempt returns immediately, the exhaustion
path is reached only when every successful attempt (in particular the
best-seen candidate) lies strictly outside tolerance, so its recomputed
check always evaluates to false. -/
theorem find_optimal_quality_in_tolerance_iff (enc : Nat → Option Nat)
    (target tol maxIter : Nat) :
    (find_optimal_quality enc target tol maxIter).in_tolerance = true
      ↔ ∃ q s, (q, some s) ∈ searchTrace enc target tol maxIter
          ∧ Nat.dist s target ≤ tol := by
  obtain ⟨-, hiff, -⟩ :=
    searchLoop_spec enc target tol maxIter 1 100 none 0 [] rfl (by simp)
  rw [show (find_optimal_quality enc target tol maxIter).in_tolerance
      = (searchLoop enc target tol 1 100 none 0 maxIter).1.in_tolerance from rfl]
  rw [hiff]
  constructor
  · rintro ⟨p, hp, hdp⟩
    exact ⟨p.1, p.2, (mem_successes _ p.1 p.2).mp (by simpa using hp), hdp⟩
  · rintro ⟨q, s, hmem, hd⟩
    exact ⟨(q, s), (mem_successes _ q s).mpr hmem, hd⟩

/-- Claim C4: in every loop iteration of find_optimal_quality in which the
attempted quality mid = (low + high) / 2 encodes successfully with size s
such that |s - targetBytes| ≤ toleranceBytes, the search returns
immediately with in_tolerance = true, quality = mid, size = s and the
current iteration count iter + 1, and the attempt trace of the rest of the
run consists of that single attempt: no further encode attempts are
performed. -/
theorem searchLoop_early_exit (enc : Nat → Option Nat) (target tol low high : Nat)
    (best : Option (Nat × Nat)) (iter fuel s : Nat)
    (hlh : low ≤ high) (henc : enc ((low + high) / 2) = some s)
    (htol : Nat.dist s target ≤ tol) :
    searchLoop enc target tol low high best iter (fuel + 1) =
      ({ quality := some ((low + high) / 2), size := some s,
         iterations := iter + 1, in_tolerance := true },
        [((low + high) / 2, some s)]) := by
  simp [searchLoop, hlh, henc, htol]

/-- Witness for claim C4: the identity-size encoder at target 50 and
tolerance 0 hits the target at the very first attempted quality
mid = (1 + 100) / 2 = 50 and returns immediately with in_tolerance = true
and iteration count 1. -/
theorem searchLoop_early_exit_witness :
    (1 : Nat) ≤ 100 ∧ encId 50 = some 50 ∧ Nat.dist 50 50 ≤ 0
      ∧ searchLoop encId 50 0 1 100 none 0 10 =
        ({ quality := some 50, size := some 50, iterations := 1,
           in_tolerance := true }, [(50, some 50)]) :=
  ⟨by decide, rfl, by decide,
    searchLoop_early_exit encId 50 0 1 100 none 0 9 50 (by decide) rfl (by decide)⟩

/-- Claim C7: in every loop iteration of find_optimal_quality in which
encoding the attempted quality mid = (low + high) / 2 raises a codec error,
the search treats mid as too large: it narrows high to mid - 1 and
continues with the next iteration, the best-seen candidate is passed on
unchanged (a failed attempt never becomes or replaces it and contributes no
entry to the successful observations), and the error is not fatal to the
search. -/
theorem searchLoop_codec_error (enc : Nat → Option Nat) (target tol low high : Nat)
    (best : Option (Nat × Nat)) (iter fuel : Nat)
    (hlh : low ≤ high) (henc : enc ((low + high) / 2) = none) :
    searchLoop enc target tol low high best iter (fuel + 1) =
        ((searchLoop enc target tol low ((low + high) / 2 - 1) best (iter + 1)
            fuel).1,
          ((low + high) / 2, none) ::
            (searchLoop enc target tol low ((low + high) / 2 - 1) best (iter + 1)
              fuel).2)
      ∧ successes (searchLoop enc target tol low high best iter (fuel + 1)).2 =
          successes (searchLoop enc target tol low ((low + high) / 2 - 1) best
            (iter + 1) fuel).2 := by
  constructor
  · simp [searchLoop, hlh, henc]
  · simp [searchLoop, hlh, henc, successes]

/-- Witness for claim C7: the always-failing encoder at the first iteration
(low = 1, high = 100, mid = 50) narrows high to 49 and continues with the
same (absent) best candidate; the failed attempt is recorded in the trace
but not among the successful observations. -/
theorem searchLoop_codec_error_witness :
    (1 : Nat) ≤ 100 ∧ encNone 50 = none
      ∧ (searchLoop encNone 5 0 1 100 none 0 3 =
          ((searchLoop encNone 5 0 1 49 none 1 2).1,
            (50, none) :: (searchLoop encNone 5 0 1 49 none 1 2).2)
        ∧ successes (searchLoop encNone 5 0 1 100 none 0 3).2 =
            successes (searchLoop encNone 5 0 1 49 none 1 2).2) :=
  ⟨by decide, rfl,
    searchLoop_codec_error encNone 5 0 1 100 none 0 2 (by decide) rfl⟩

theorem processItem_counts (st : RunStats) (os : Nat) (step : ItemStep) :
    ((processItem st os step).converted = st.converted + 1
        ∧ (processItem st os step).failed = st.failed)
      ∨ ((processItem st os step).converted = st.converted
        ∧ (processItem st os step).failed = st.failed + 1) := by
  cases step <;> simp [processItem]

theorem runBatch_foldl_counts (items : List (Nat × ItemStep)) :
    ∀ st : RunStats,
      (items.foldl (fun st it => processItem st it.1 it.2) st).converted
          + (items.foldl (fun st it => processItem st it.1 it.2) st).failed
        = st.converted + st.failed + items.length := by
  induction items with
  | nil => intro st; simp
  | cons it items ih =>
    intro st
    simp only [List.foldl_cons, List.length_cons]
    rw [ih (processItem st it.1 it.2)]
    rcases processItem_counts st it.1 it.2 with ⟨h1, h2⟩ | ⟨h1, h2⟩ <;>
      rw [h1, h2] <;> omega

theorem runBatch_counts (items : List (Nat × ItemStep)) :
    (runBatch items).converted + (runBatch items).failed = items.length := by
  have h := runBatch_foldl_counts items initStats
  simpa [runBatch, initStats] using h

theorem localLoop_counts (items : List LocalItem) :
    ∀ st st2 : RunStats, (localLoop items st).2 = some st2 →
      st2.converted + st2.failed = st.converted + st.failed + items.length := by
  induction items with
  | nil =>
    intro st st2 h
    simp only [localLoop, Option.some.injEq] at h
    subst h
    simp
  | cons it rest ih =>
    intro st st2 h
    cases it with
    | uncaughtError => simp [localLoop] at h
    | item os step =>
      simp only [localLoop] at h
      have hr := ih (processItem st os step) st2 h
      rcases processItem_counts st os step with ⟨h1, h2⟩ | ⟨h1, h2⟩ <;>
        rw [h1, h2] at hr <;> simp only [List.length_cons] <;> omega

theorem localLoop_complete (items : List LocalItem) :
    ∀ st : RunStats, LocalItem.uncaughtError ∉ items →
      ∃ st2, (localLoop items st).2 = some st2 := by
  induction items with
  | nil => intro st _; exact ⟨st, rfl⟩
  | cons it rest ih =>
    intro st hmem
    cases it with
    | uncaughtError => exact absurd (List.mem_cons_self _ _) hmem
    | item os step =>
      have hrest : LocalItem.uncaughtError ∉ rest :=
        fun hm => hmem (List.mem_cons_of_mem _ hm)
      obtain ⟨st2, h⟩ := ih (processItem st os step) hrest
      exact ⟨st2, h⟩

/-- Claim C5 is refuted for local mode: in convert_local_directory the
os.makedirs and os.path.getsize calls (src/app.py lines 457 and 459) run
outside the try block, so an exception there aborts the whole loop with
neither counter incremented.  On a valid directory with three items whose
second fails in that pre-try step, the run reaches the per-item loop but
processes only the first item (log [infoStart, infoConverted], so exactly
one per-item outcome for three input items) and terminates with no
RunSummary: convertedCount + failedCount = total fails and a per-item
failure has aborted the loop. -/
theorem batch_counts_counterexample :
    ([LocalItem.item 1000 (ItemStep.success 400), LocalItem.uncaughtError,
        LocalItem.item 500 (ItemStep.success 200)] ≠ ([] : List LocalItem))
      ∧ (convert_local_directory true
          [LocalItem.item 1000 (ItemStep.success 400), LocalItem.uncaughtError,
            LocalItem.item 500 (ItemStep.success 200)]).summary = none
      ∧ (convert_local_directory true
          [LocalItem.item 1000 (ItemStep.success 400), LocalItem.uncaughtError,
            LocalItem.item 500 (ItemStep.success 200)]).log
        = [LogEntry.infoStart, LogEntry.infoConverted] := by
  decide

/-- Claim C5 as amended: every item processed through the try block
increments exactly one of the converted or failed counters (a caught
per-item failure never aborts the loop).  A web-mode run, where every
per-item failure point lies inside the try block, always ends with
convertedCount + failedCount equal to the number of input items, and a
local-mode run does so whenever it produces a summary -- equivalently,
whenever no item fails in the pre-try makedirs/getsize step, which
otherwise aborts the loop. -/
theorem batch_counts :
    (∀ items st, convert_uploaded_files items = some st →
        st.converted + st.failed = items.length)
      ∧ (∀ (v : Bool) (items : List LocalItem) (st : RunStats),
          (convert_local_directory v items).summary = some st →
          st.converted + st.failed = items.length)
      ∧ (∀ items : List LocalItem, LocalItem.uncaughtError ∉ items →
          items ≠ [] →
          ∃ st, (convert_local_directory true items).summary = some st
            ∧ st.converted + st.failed = items.length)
      ∧ ∀ (st : RunStats) (os : Nat) (step : ItemStep),
          ((processItem st os step).converted = st.converted + 1
              ∧ (processItem st os step).failed = st.failed)
            ∨ ((processItem st os step).converted = st.converted
              ∧ (processItem st os step).failed = st.failed + 1) := by
  refine ⟨?_, ?_, ?_, processItem_counts⟩
  · intro items st h
    simp only [convert_uploaded_files] at h
    split at h
    · exact absurd h (by simp)
    · simp only [Option.some.injEq] at h
      subst h
      exact runBatch_counts items
  · intro v items st h
    simp only [convert_local_directory] at h
    split at h
    · split at h
      · simp at h
      · cases hll : (localLoop items initStats).2 with
        | none => rw [hll] at h; simp at h
        | some st3 =>
          rw [hll] at h
          simp only [Option.some.injEq] at h
          subst h
          have hc := localLoop_counts items initStats st3 hll
          simpa [initStats] using hc
    · simp at h
  · intro items hmem hne
    have hlen : ¬ items.length = 0 :=
      fun h0 => hne (List.length_eq_zero.mp h0)
    obtain ⟨st2, hll⟩ := localLoop_complete items initStats hmem
    have hc := localLoop_counts items initStats st2 hll
    refine ⟨st2, ?_, by simpa [initStats] using hc⟩
    simp [convert_local_directory, hlen, hll]

/-- Witness for the amended claim C5 on a concrete two-item local-mode run
with one success, one caught failure and no pre-try failure: the run
completes with a summary whose converted + failed equals 2. -/
theorem batch_counts_witness :
    (LocalItem.uncaughtError ∉
        [LocalItem.item 1000 (ItemStep.success 400),
          LocalItem.item 500 ItemStep.decodeError]
      ∧ [LocalItem.item 1000 (ItemStep.success 400),
          LocalItem.item 500 ItemStep.decodeError] ≠ [])
      ∧ ∃ st, (convert_local_directory true
            [LocalItem.item 1000 (ItemStep.success 400),
              LocalItem.item 500 ItemStep.decodeError]).summary = some st
          ∧ st.converted + st.failed =
              [LocalItem.item 1000 (ItemStep.success 400),
                LocalItem.item 500 ItemStep.decodeError].length :=
  ⟨⟨by decide, by decide⟩,
    batch_counts.2.2.1
      [LocalItem.item 1000 (ItemStep.success 400),
        LocalItem.item 500 ItemStep.decodeError] (by decide) (by decide)⟩

/-- Claim C6 is refuted in its log clause: on a valid directory with zero
eligible image files the run does abort with the empty-input warning and no
RunSummary, but the log is not limited to that warning: the run-start info
entry (src/app.py line 399) is written before the files are collected, so
the log contains an entry beyond the warning. -/
theorem convert_local_directory_empty_counterexample :
    (convert_local_directory true []).summary = none
      ∧ LogEntry.warnNoInput ∈ (convert_local_directory true []).log
      ∧ ¬ ∀ e ∈ (convert_local_directory true []).log, e = LogEntry.warnNoInput := by
  decide

/-- Claim C6 as amended: when the local-mode input directory yields zero
eligible image files, the run aborts before processing any item with the
empty-input warning, no RunSummary is produced, and the run's log contains
exactly the run-start info entry followed by that warning (no per-item or
summary entries). -/
theorem convert_local_directory_empty_input (items : List LocalItem)
    (h : items.length = 0) :
    (convert_local_directory true items).summary = none
      ∧ (convert_local_directory true items).log
          = [LogEntry.infoStart, LogEntry.warnNoInput] := by
  simp [convert_local_directory, h]

/-- Witness for the amended claim C6 at the empty item list. -/
theorem convert_local_directory_empty_input_witness :
    ([] : List LocalItem).length = 0
      ∧ ((convert_local_directory true []).summary = none
        ∧ (convert_local_directory true []).log
            = [LogEntry.infoStart, LogEntry.warnNoInput]) :=
  ⟨rfl, convert_local_directory_empty_input [] rfl⟩

/-- Claim C8: the per-item compression ratio equals
(1 - convertedSize / originalSize) * 100 when originalSize > 0, and 0
otherwise (originalSize = 0); in particular for originalSize = 1000 and
convertedSize = 400 it equals exactly 60. -/
theorem compressionRatioPercent_spec :
    (∀ os cs : Nat, 0 < os →
        compressionRatioPercent os cs = (1 - (cs : ℚ) / (os : ℚ)) * 100)
      ∧ (∀ cs : Nat, compressionRatioPercent 0 cs = 0)
      ∧ compressionRatioPercent 1000 400 = 60 := by
  refine ⟨?_, ?_, ?_⟩
  · intro os cs h
    rw [compressionRatioPercent, if_pos h]
  · intro cs
    rfl
  · rw [compressionRatioPercent, if_pos (by norm_num)]
    norm_num

/-- Witness for claim C8 at originalSize = 1000, convertedSize = 400. -/
theorem compressionRatioPercent_spec_witness :
    (0 : Nat) < 1000
      ∧ compressionRatioPercent 1000 400 = (1 - (400 : ℚ) / (1000 : ℚ)) * 100 :=
  ⟨by norm_num, compressionRatioPercent_spec.1 1000 400 (by norm_num)⟩

/-- Claim C9: for every input name whose lowercase form does not already
end in ".avif", the keepOriginalName = true and keepOriginalName = false
settings yield the identical output name, namely the original name with
its extension stripped (os.path.splitext) and ".avif" appended; in
particular "photo.png" yields "photo.avif" under both settings. -/
theorem avifName_strip (name : List Char)
    (h : endswithAvifLower name = false) :
    avifName true name = avifName false name
      ∧ avifName false name = (splitext name).1 ++ avifSuffix
      ∧ avifName true photoPng = photoAvif
      ∧ avifName false photoPng = photoAvif := by
  refine ⟨?_, rfl, by decide, by decide⟩
  simp [avifName, h]

/-- Witness for claim C9 at the input name "photo.png". -/
theorem avifName_strip_witness :
    endswithAvifLower photoPng = false
      ∧ (avifName true photoPng = avifName false photoPng
        ∧ avifName false photoPng = (splitext photoPng).1 ++ avifSuffix
        ∧ avifName true photoPng = photoAvif
        ∧ avifName false photoPng = photoAvif) :=
  ⟨by decide, avifName_strip photoPng (by decide)⟩

end Image2Avif
